import Mathlib

/-
Verification development for `ET-design/data/Data/code2/analysis_1_function.py`.

The Python source processes oscilloscope captures: `main_analysis` extracts four
timing metrics from one two-channel waveform, and `data_integration` runs it over
a batch of records, catching `ValueError` per record.  The numeric model is exact
rational arithmetic (`ℚ`).  External library calls (scipy's Savitzky-Golay filter,
scipy's `curve_fit`, numpy reductions, pandas CSV reading) are modelled at their
documented contracts; everything written by the repository itself is translated
directly from the source.
-/

/-- Python exception values that cross function boundaries in the source:
`ValueError` (carrying a message) and `IndexError` (raised by `[0]` on an empty
`np.where` result).  `data_integration`'s `except ValueError` clause catches only
the first kind. -/
inductive PyExc
  | valueError (msg : String)
  | indexError
deriving DecidableEq

/-- The three columns `main_analysis` reads from the pandas DataFrame:
`data['Time(s)']`, `data['CH1(V)']`, `data['CH2(V)']`.  CSV parsing itself is
external I/O (pandas), so a record arrives as its already-parsed columns. -/
structure DataFrame where
  time : List ℚ
  ch1 : List ℚ
  ch2 : List ℚ
deriving DecidableEq

/-- The tuple returned by `main_analysis`:
`(CH2_rise_duration, CH2_fall_duration, rise_response_time, fall_response_time)`. -/
structure AnalysisResult where
  rise_duration : ℚ
  fall_duration : ℚ
  rise_response_time : ℚ
  fall_response_time : ℚ
deriving DecidableEq

/-- The five parallel lists built by `data_integration`. -/
structure Groups where
  voltage_group : List ℚ
  rise_time_group : List ℚ
  fall_time_group : List ℚ
  rise_response_time_group : List ℚ
  fall_response_time_group : List ℚ
deriving DecidableEq

/-- Source: `def flat_line(x, a): return a * np.ones_like(x)` — the constant
model handed to `curve_fit`; on an input of length `n` it returns `n` copies
of the parameter `a`. -/
def flat_line (n : ℕ) (a : ℚ) : List ℚ :=
  List.replicate n a

/-- Arithmetic mean of a list (sum divided by length). -/
def mean (ys : List ℚ) : ℚ :=
  ys.sum / ys.length

/-- The ordinary-least-squares objective for the `flat_line` model: the sum of
squared residuals between the data `ys` and the model output `flat_line ys.length a`.
This is the quantity `scipy.optimize.curve_fit(flat_line, xs, ys)` minimises. -/
def sse (ys : List ℚ) (a : ℚ) : ℚ :=
  ((ys.zip (flat_line ys.length a)).map (fun p => (p.1 - p.2) ^ 2)).sum

/-- Model of `curve_fit(flat_line, xs, ys)` at its documented contract: on empty
`ydata` scipy raises `ValueError`; otherwise it returns the least-squares
constant fit, which by `C6_ols_mean` below is exactly `mean ys` (the fitted
constant does not depend on `xs`). -/
def curveFitFlat (ys : List ℚ) : Except PyExc ℚ :=
  if ys = [] then .error (.valueError "ydata must not be empty") else .ok (mean ys)

/-- Source condition of the `find_intersection` loop:
`(y[i] > level and y[i+1] < level) or (y[i] < level and y[i+1] > level)`. -/
def crossesLevel (level y0 y1 : ℚ) : Prop :=
  (y0 > level ∧ y1 < level) ∨ (y0 < level ∧ y1 > level)

instance (level y0 y1 : ℚ) : Decidable (crossesLevel level y0 y1) :=
  inferInstanceAs (Decidable ((y0 > level ∧ y1 < level) ∨ (y0 < level ∧ y1 > level)))

/-- Source interpolation: `t = (level - y[i]) / (y[i+1] - y[i])`;
`intersection_time = x[i] + t * (x[i+1] - x[i])`. -/
def interpTime (level x0 y0 x1 y1 : ℚ) : ℚ :=
  x0 + (level - y0) / (y1 - y0) * (x1 - x0)

/-- One iteration of the `find_intersection` loop: the crossing appended for the
consecutive pair `(x0,y0),(x1,y1)`, if any. -/
def pairCrossing (level x0 y0 x1 y1 : ℚ) : Option ℚ :=
  if crossesLevel level y0 y1 then some (interpTime level x0 y0 x1 y1) else none

/-- Source: `find_intersection(x, y, level)` — the loop
`for i in range(len(y) - 1)` over consecutive sample pairs, appending the
interpolated crossing time for each qualifying pair, in order. -/
def find_intersection : List ℚ → List ℚ → ℚ → List ℚ
  | x0 :: x1 :: xs, y0 :: y1 :: ys, level =>
    (pairCrossing level x0 y0 x1 y1).toList ++ find_intersection (x1 :: xs) (y1 :: ys) level
  | _, _, _ => []

/-- First index at which a predicate holds on a list; `none` when it never does.
This is the meaning of `np.where(mask)[0][0]` on the list of consecutive pairs:
the smallest index where the mask is true, with the empty case left to the
caller (Python raises `IndexError` there). -/
def scanIdx (p : ℚ × ℚ → Bool) : List (ℚ × ℚ) → Option ℕ
  | [] => none
  | q :: qs => if p q then some 0 else (scanIdx p qs).map (· + 1)

/-- Source: `np.where((ys[:-1] < thr) & (ys[1:] > thr))[0][0]` — index of the
first consecutive pair rising through `thr`. -/
def risingIndex (ys : List ℚ) (thr : ℚ) : Option ℕ :=
  scanIdx (fun q => decide (q.1 < thr ∧ thr < q.2)) (ys.zip ys.tail)

/-- Source: `np.where((ys[:-1] > thr) & (ys[1:] < thr))[0][0]` — index of the
first consecutive pair falling through `thr`. -/
def fallingIndex (ys : List ℚ) (thr : ℚ) : Option ℕ :=
  scanIdx (fun q => decide (thr < q.1 ∧ q.2 < thr)) (ys.zip ys.tail)

/-- Source: `time[np.where((ys[:-1] < thr) & (ys[1:] > thr))[0][0]]` — the time
stamped at the first rising pair's index (the EARLIER sample of the pair). -/
def edgeTimeRising (time ys : List ℚ) (thr : ℚ) : Option ℚ :=
  (risingIndex ys thr).map (fun i => time.getD i 0)

/-- Falling counterpart of `edgeTimeRising`. -/
def edgeTimeFalling (time ys : List ℚ) (thr : ℚ) : Option ℚ :=
  (fallingIndex ys thr).map (fun i => time.getD i 0)

/-- Python `arr[0]` on a possibly-empty `np.where` result: `IndexError` when the
mask matched nowhere. -/
def whereFirst {α : Type} : Option α → Except PyExc α
  | some a => .ok a
  | none => .error .indexError

/-- Model of `np.max`, which raises `ValueError` on a zero-size array. -/
def npMax (ys : List ℚ) : Except PyExc ℚ :=
  match ys.max? with
  | some v => .ok v
  | none => .error (.valueError "zero-size array to reduction operation")

/-- Model of `np.min`, which raises `ValueError` on a zero-size array. -/
def npMin (ys : List ℚ) : Except PyExc ℚ :=
  match ys.min? with
  | some v => .ok v
  | none => .error (.valueError "zero-size array to reduction operation")

/-- The message of the explicit `raise ValueError` in `main_analysis` when fewer
than two low-level crossings are found. -/
def lowCrossingsMsg : String := "未找到低电平的两个交点，请检查数据质量"

/-- Embedding of `main_analysis(data)`.  The Savitzky-Golay filter
(`savgol_filter(ch, 1511, 3)`, an external scipy call whose fixed window is tied
to one sampling rate) is abstracted as the parameter `smooth`; it returns
`.error` for the `ValueError` scipy raises when the window exceeds the channel
length.  Every other step is translated from the source in source order:
dynamic threshold on smoothed CH1, rising/falling trigger edges (`IndexError`
when absent), high/low partitions of smoothed CH2 with constant least-squares
fits, fall-start scan at the high level, low-level crossings of smoothed CH2
(the source passes `CH2`, the filtered array, to `find_intersection`), the
explicit `raise ValueError` when fewer than two crossings exist, rise-end scan,
and the four metric differences. -/
def main_analysis (smooth : List ℚ → Except PyExc (List ℚ)) (data : DataFrame) :
    Except PyExc AnalysisResult := do
  let time := data.time
  let ch1 := data.ch1
  let ch2 := data.ch2
  let CH1 ← smooth ch1
  let CH2 ← smooth ch2
  let CH1max ← npMax CH1
  let CH1min ← npMin CH1
  let CH1_threshold := (CH1max + CH1min) / 2
  let CH1_left_time ← whereFirst (edgeTimeRising time CH1 CH1_threshold)
  let CH1_right_time ← whereFirst (edgeTimeFalling time CH1 CH1_threshold)
  let CH2max ← npMax CH2
  let CH2min ← npMin CH2
  let CH2_mid := (CH2max + CH2min) / 2
  let high_values := CH2.filter (fun v => decide (CH2_mid < v))
  let low_values := CH2.filter (fun v => decide (v < CH2_mid))
  let CH2_high_level ← curveFitFlat high_values
  let CH2_low_level ← curveFitFlat low_values
  let CH2_fall_start_time ← whereFirst (edgeTimeFalling time CH2 CH2_high_level)
  let low_intersections := find_intersection time CH2 CH2_low_level
  if 2 ≤ low_intersections.length then
    let CH2_rise_start_time := low_intersections.getD 0 0
    let CH2_fall_end_time := low_intersections.getD 1 0
    let CH2_fall_duration := CH2_fall_end_time - CH2_fall_start_time
    let CH2_rise_end_time ← whereFirst (edgeTimeRising time CH2 CH2_high_level)
    let CH2_rise_duration := CH2_rise_end_time - CH2_rise_start_time
    let rise_response_time := CH2_rise_start_time - CH1_left_time
    let fall_response_time := CH2_fall_start_time - CH1_right_time
    return ⟨CH2_rise_duration, CH2_fall_duration, rise_response_time, fall_response_time⟩
  else
    .error (.valueError lowCrossingsMsg)

/-- Embedding of `data_integration(file_path)`.  Directory listing,
filename-to-voltage parsing and `pd.read_csv` are external I/O; the batch
arrives as the already-parsed list of `(voltage, DataFrame)` pairs in directory
iteration order.  Faithful to the loop body: `voltage_group.append(voltage)`
runs BEFORE `main_analysis`, the `except ValueError` clause catches only
`ValueError` (skipping that record's metric appends), and any other exception
(`IndexError` from an empty `np.where` lookup) propagates, aborting the loop. -/
def data_integration (smooth : List ℚ → Except PyExc (List ℚ)) :
    List (ℚ × DataFrame) → Except PyExc Groups
  | [] => .ok ⟨[], [], [], [], []⟩
  | (voltage, data) :: rest =>
    match main_analysis smooth data with
    | .ok outcome =>
      match data_integration smooth rest with
      | .ok g => .ok ⟨voltage :: g.voltage_group,
          outcome.rise_duration :: g.rise_time_group,
          outcome.fall_duration :: g.fall_time_group,
          outcome.rise_response_time :: g.rise_response_time_group,
          outcome.fall_response_time :: g.fall_response_time_group⟩
      | .error e => .error e
    | .error (.valueError _) =>
      match data_integration smooth rest with
      | .ok g => .ok ⟨voltage :: g.voltage_group, g.rise_time_group, g.fall_time_group,
          g.rise_response_time_group, g.fall_response_time_group⟩
      | .error e => .error e
    | .error .indexError => .error .indexError

/-- Identity instantiation of the abstract smoother, used for concrete
instances: it makes the filtered channel coincide with the raw one, which keeps
every concrete computation exact while exercising the rest of the pipeline
unchanged. -/
def idSmooth : List ℚ → Except PyExc (List ℚ) := fun l => .ok l

/-- A record on which the whole analysis succeeds: trigger rises at index 0,
falls at index 5; response has high plateau 5 (mean of 6,4,4,6), low partition
mean -5/3, and exactly two low-level crossings (at 7/3 and 11/3). -/
def Wgood : DataFrame :=
  ⟨[0, 1, 2, 3, 4, 5, 6], [0, 10, 10, 10, 10, 10, 0], [6, 4, -1, -3, -1, 4, 6]⟩

/-- A record whose response never strictly recrosses its fitted low level 0
(it only touches it), so `find_intersection` returns `[]` and `main_analysis`
reaches the explicit `raise ValueError`. -/
def Wbad : DataFrame :=
  ⟨[0, 1, 2, 3], [0, 10, 10, 0], [6, 4, 0, 0]⟩

/-- A record whose trigger channel is constant, so the rising-edge mask is empty
everywhere and the `[0]` lookup raises `IndexError` (the NoEdgeFound failure). -/
def Wnoedge : DataFrame :=
  ⟨[0, 1], [5, 5], [0, 1]⟩

/-- A record with FOUR low-level crossings (low partition mean -9/5, crossed at
12/5, 18/5, 22/5, 28/5) on which the analysis nevertheless succeeds. -/
def Wmulti : DataFrame :=
  ⟨[0, 1, 2, 3, 4, 5, 6, 7, 8], [0, 10, 10, 10, 10, 10, 10, 10, 0],
   [6, 4, -1, -3, -1, -3, -1, 4, 6]⟩

/-- The loop of `find_intersection` visits exactly the consecutive pairs of the
zipped channel and appends `pairCrossing` of each, in order. -/
theorem find_intersection_eq_filterMap :
    ∀ (x y : List ℚ) (level : ℚ),
      find_intersection x y level =
        ((x.zip y).zip (x.zip y).tail).filterMap
          (fun q => pairCrossing level q.1.1 q.1.2 q.2.1 q.2.2)
  | x0 :: x1 :: xs, y0 :: y1 :: ys, level => by
    have ih := find_intersection_eq_filterMap (x1 :: xs) (y1 :: ys) level
    rw [find_intersection, ih]
    cases h : pairCrossing level x0 y0 x1 y1 <;>
      simp [h, List.zip_cons_cons, List.filterMap_cons]
  | [], y, level => by simp [find_intersection]
  | [x0], y, level => by cases y <;> simp [find_intersection]
  | x0 :: x1 :: xs, [], level => by simp [find_intersection]
  | x0 :: x1 :: xs, [y0], level => by simp [find_intersection]

/-- A qualifying pair's interpolated crossing time lies strictly between the
pair's two sample times. -/
theorem interpTime_between {level x0 y0 x1 y1 : ℚ} (hx : x0 < x1)
    (h : crossesLevel level y0 y1) :
    x0 < interpTime level x0 y0 x1 y1 ∧ interpTime level x0 y0 x1 y1 < x1 := by
  have hd : (0 : ℚ) < x1 - x0 := by linarith
  have hfrac : 0 < (level - y0) / (y1 - y0) ∧ (level - y0) / (y1 - y0) < 1 := by
    rcases h with ⟨h1, h2⟩ | ⟨h1, h2⟩
    · exact ⟨div_pos_iff.mpr (Or.inr ⟨by linarith, by linarith⟩),
        (div_lt_one_of_neg (by linarith)).mpr (by linarith)⟩
    · exact ⟨div_pos_iff.mpr (Or.inl ⟨by linarith, by linarith⟩),
        (div_lt_one (by linarith)).mpr (by linarith)⟩
  unfold interpTime
  constructor
  · nlinarith [hfrac.1, hfrac.2]
  · nlinarith [hfrac.1, hfrac.2]

/-- Every crossing reported on a strictly increasing time base is strictly later
than the first sample time. -/
theorem find_intersection_head_lt :
    ∀ (x y : List ℚ) (level x0 c : ℚ), List.Chain' (· < ·) x → x.head? = some x0 →
      c ∈ find_intersection x y level → x0 < c
  | a :: x1 :: xs, y0 :: y1 :: ys, level, x0, c => by
    intro hch hh hc
    have ha : a = x0 := by simpa using hh
    subst ha
    have hlt : a < x1 := (List.chain'_cons.mp hch).1
    have hch' : List.Chain' (· < ·) (x1 :: xs) := (List.chain'_cons.mp hch).2
    rw [find_intersection] at hc
    rcases List.mem_append.mp hc with hc | hc
    · cases hpc : pairCrossing level a y0 x1 y1 with
      | none => rw [hpc] at hc; simp at hc
      | some t =>
        rw [hpc] at hc
        simp at hc
        have hcr : crossesLevel level y0 y1 := by
          by_contra hn
          simp [pairCrossing, hn] at hpc
        have ht : t = interpTime level a y0 x1 y1 := by
          simp [pairCrossing, hcr] at hpc
          exact hpc.symm
        rw [hc, ht]
        exact (interpTime_between hlt hcr).1
    · exact lt_trans hlt
        (find_intersection_head_lt (x1 :: xs) (y1 :: ys) level x1 c hch' rfl hc)
  | [], y, level, x0, c => by intro _ _ hc; simp [find_intersection] at hc
  | [a], y, level, x0, c => by
    intro _ _ hc; cases y <;> simp [find_intersection] at hc
  | a :: x1 :: xs, [], level, x0, c => by intro _ _ hc; simp [find_intersection] at hc
  | a :: x1 :: xs, [y0], level, x0, c => by intro _ _ hc; simp [find_intersection] at hc

/-- On a strictly increasing time base the reported crossings are strictly
ascending. -/
theorem find_intersection_sorted :
    ∀ (x y : List ℚ) (level : ℚ), List.Chain' (· < ·) x →
      List.Pairwise (· < ·) (find_intersection x y level)
  | x0 :: x1 :: xs, y0 :: y1 :: ys, level => by
    intro hch
    have hlt : x0 < x1 := (List.chain'_cons.mp hch).1
    have hch' : List.Chain' (· < ·) (x1 :: xs) := (List.chain'_cons.mp hch).2
    have ih := find_intersection_sorted (x1 :: xs) (y1 :: ys) level hch'
    rw [find_intersection]
    cases hpc : pairCrossing level x0 y0 x1 y1 with
    | none => simpa using ih
    | some t =>
      have hcr : crossesLevel level y0 y1 := by
        by_contra hn
        simp [pairCrossing, hn] at hpc
      have ht : t = interpTime level x0 y0 x1 y1 := by
        simp [pairCrossing, hcr] at hpc
        exact hpc.symm
      simp only [Option.toList, List.cons_append, List.nil_append]
      refine List.pairwise_cons.mpr ⟨fun c hc => ?_, ih⟩
      have hxc : x1 < c :=
        find_intersection_head_lt (x1 :: xs) (y1 :: ys) level x1 c hch' rfl hc
      have ht1 : t < x1 := by rw [ht]; exact (interpTime_between hlt hcr).2
      exact lt_trans ht1 hxc
  | [], y, level => by intro _; simp [find_intersection]
  | [x0], y, level => by intro _; cases y <;> simp [find_intersection]
  | x0 :: x1 :: xs, [], level => by intro _; simp [find_intersection]
  | x0 :: x1 :: xs, [y0], level => by intro _; simp [find_intersection]

/-- C7: for a channel with strictly increasing sample times, `find_intersection`
returns exactly one entry per consecutive pair whose values lie strictly on
opposite sides of the level — each the linear interpolation
`x[i] + (level - y[i]) / (y[i+1] - y[i]) * (x[i+1] - x[i])` — and the returned
list is in strictly ascending time order. -/
theorem C7_crossings (x y : List ℚ) (level : ℚ) (hx : List.Chain' (· < ·) x) :
    find_intersection x y level =
      ((x.zip y).zip (x.zip y).tail).filterMap
        (fun q => pairCrossing level q.1.1 q.1.2 q.2.1 q.2.2) ∧
    List.Pairwise (· < ·) (find_intersection x y level) :=
  ⟨find_intersection_eq_filterMap x y level, find_intersection_sorted x y level hx⟩

theorem C7_crossings_witness :
    find_intersection [0, 1, 2, 3] [5, -5, 5, -5] 0 =
      ((([0, 1, 2, 3] : List ℚ).zip ([5, -5, 5, -5] : List ℚ)).zip
        (([0, 1, 2, 3] : List ℚ).zip ([5, -5, 5, -5] : List ℚ)).tail).filterMap
        (fun q => pairCrossing 0 q.1.1 q.1.2 q.2.1 q.2.2) ∧
    List.Pairwise (· < ·) (find_intersection [0, 1, 2, 3] [5, -5, 5, -5] 0) :=
  C7_crossings [0, 1, 2, 3] [5, -5, 5, -5] 0
    (by norm_num [List.chain'_cons, List.chain'_singleton])

/-- C8: the crossing finder never divides by zero.  A consecutive pair whose
interpolation denominator `y[i+1] - y[i]` is zero reports no crossing, and the
qualifying condition already forces the denominator to be nonzero. -/
theorem C8_no_div_by_zero (level x0 y0 x1 y1 : ℚ) :
    (y1 - y0 = 0 → pairCrossing level x0 y0 x1 y1 = none) ∧
    (crossesLevel level y0 y1 → y1 - y0 ≠ 0) := by
  constructor
  · intro h
    have hy : y1 = y0 := by linarith
    subst hy
    rw [pairCrossing, if_neg]
    rintro (⟨h1, h2⟩ | ⟨h1, h2⟩) <;> linarith
  · rintro (⟨h1, h2⟩ | ⟨h1, h2⟩) h <;> linarith

theorem C8_no_div_by_zero_witness :
    pairCrossing 3 0 5 1 5 = none ∧ (5 : ℚ) - 2 ≠ 0 :=
  ⟨(C8_no_div_by_zero 3 0 5 1 5).1 (by norm_num),
   (C8_no_div_by_zero 3 0 2 1 5).2 (Or.inr ⟨by norm_num, by norm_num⟩)⟩

/-- C10: a sample that merely touches the level (equals it exactly) never
yields a crossing from either adjacent pair, because both comparisons are
strict; and a channel with fewer than two samples yields the empty list. -/
theorem C10_touch (x y : List ℚ) (level : ℚ) :
    (y.length < 2 → find_intersection x y level = []) ∧
    find_intersection x y level =
      ((x.zip y).zip (x.zip y).tail).filterMap
        (fun q => pairCrossing level q.1.1 q.1.2 q.2.1 q.2.2) ∧
    (∀ x0 y0 x1 y1 : ℚ, y0 = level ∨ y1 = level →
      pairCrossing level x0 y0 x1 y1 = none) := by
  refine ⟨fun h => ?_, find_intersection_eq_filterMap x y level, fun x0 y0 x1 y1 h => ?_⟩
  · rw [find_intersection_eq_filterMap]
    have hz : ((x.zip y).zip (x.zip y).tail) = [] := by
      rw [← List.length_eq_zero]
      simp only [List.length_zip, List.length_tail]
      omega
    rw [hz]
    rfl
  · rw [pairCrossing, if_neg]
    rintro (⟨h1, h2⟩ | ⟨h1, h2⟩) <;> rcases h with rfl | rfl <;> linarith

theorem C10_touch_witness :
    find_intersection [0] [3] 5 = [] ∧ pairCrossing 5 0 5 1 9 = none :=
  ⟨(C10_touch [0] [3] 5).1 (by decide), (C10_touch [0] [3] 5).2.2 0 5 1 9 (Or.inl rfl)⟩

/-- Zipping a list with the constant model output pairs each sample with the
constant. -/
theorem zip_replicate_self :
    ∀ (ys : List ℚ) (a : ℚ), ys.zip (List.replicate ys.length a) = ys.map (fun v => (v, a))
  | [], _ => rfl
  | y :: ys, a => by
    simp [List.replicate, zip_replicate_self ys a]

/-- The least-squares objective as a plain sum of squared deviations. -/
theorem sse_eq_map (ys : List ℚ) (a : ℚ) :
    sse ys a = (ys.map (fun v => (v - a) ^ 2)).sum := by
  rw [sse, flat_line, zip_replicate_self, List.map_map]
  rfl

/-- Quadratic expansion of the least-squares objective. -/
theorem sse_expand :
    ∀ (ys : List ℚ) (a : ℚ),
      sse ys a = (ys.map (fun v => v ^ 2)).sum - 2 * a * ys.sum + ys.length * a ^ 2
  | [], a => by simp [sse_eq_map]
  | y :: ys, a => by
    have ih := sse_expand ys a
    rw [sse_eq_map] at ih ⊢
    simp only [List.map_cons, List.sum_cons, List.length_cons]
    rw [ih]
    push_cast
    ring

/-- Completing the square: the objective at any `a` exceeds the objective at the
mean by `n * (a - mean)²`. -/
theorem sse_shift (ys : List ℚ) (h : ys ≠ []) (a : ℚ) :
    sse ys a = sse ys (mean ys) + ys.length * (a - mean ys) ^ 2 := by
  have hn : (ys.length : ℚ) ≠ 0 := by
    have := List.length_pos.mpr h
    positivity
  rw [sse_expand, sse_expand, mean]
  field_simp
  ring

/-- C6: the ordinary-least-squares constant fit and the arithmetic mean are the
same function — on a non-empty partition the mean minimises the `flat_line`
residual objective, and it is the unique minimiser. -/
theorem C6_ols_mean (ys : List ℚ) (h : ys ≠ []) :
    (∀ a, sse ys (mean ys) ≤ sse ys a) ∧
    (∀ a, (∀ b, sse ys a ≤ sse ys b) → a = mean ys) := by
  have hn : (0 : ℚ) < ys.length := by exact_mod_cast List.length_pos.mpr h
  constructor
  · intro a
    rw [sse_shift ys h a]
    nlinarith [sq_nonneg (a - mean ys)]
  · intro a hmin
    have h1 := hmin (mean ys)
    rw [sse_shift ys h a] at h1
    have h3 : (a - mean ys) ^ 2 = 0 := by nlinarith [sq_nonneg (a - mean ys)]
    have h4 : a - mean ys = 0 := by
      exact pow_eq_zero_iff (by norm_num) |>.mp h3
    linarith

theorem C6_ols_mean_witness :
    sse [1, 2, 6] (mean [1, 2, 6]) ≤ sse [1, 2, 6] 5 :=
  (C6_ols_mean [1, 2, 6] (by decide)).1 5

/-- The index `scanIdx` returns is the first at which the mask holds: the index is in
range, the mask holds there, and fails strictly earlier. -/
theorem scanIdx_some_spec (p : ℚ × ℚ → Bool) :
    ∀ (l : List (ℚ × ℚ)) (n : ℕ), scanIdx p l = some n →
      n < l.length ∧ p (l.getD n (0, 0)) = true ∧
      ∀ m, m < n → p (l.getD m (0, 0)) = false
  | [], n => by intro h; simp [scanIdx] at h
  | q :: qs, n => by
    intro h
    rw [scanIdx] at h
    by_cases hq : p q
    · rw [if_pos hq] at h
      have hn : n = 0 := by simpa using h.symm
      subst hn
      exact ⟨by simp, by simpa using hq, fun m hm => absurd hm (Nat.not_lt_zero m)⟩
    · rw [if_neg hq] at h
      cases hs : scanIdx p qs with
      | none => rw [hs] at h; simp at h
      | some m0 =>
        rw [hs] at h
        simp at h
        subst h
        have ih := scanIdx_some_spec p qs m0 hs
        refine ⟨by simpa using Nat.succ_lt_succ ih.1, by simpa using ih.2.1, ?_⟩
        intro m hm
        cases m with
        | zero => simpa using hq
        | succ m1 =>
          have := ih.2.2 m1 (Nat.lt_of_succ_lt_succ hm)
          simpa using this

/-- Whenever the mask holds somewhere, `scanIdx` finds something. -/
theorem scanIdx_isSome (p : ℚ × ℚ → Bool) :
    ∀ (l : List (ℚ × ℚ)) (n : ℕ), n < l.length → p (l.getD n (0, 0)) = true →
      (scanIdx p l).isSome = true
  | [], n => by intro h _; simp at h
  | q :: qs, n => by
    intro hn hp
    rw [scanIdx]
    by_cases hq : p q
    · simp [hq]
    · rw [if_neg hq]
      cases n with
      | zero => exact absurd (by simpa using hp) hq
      | succ m =>
        have := scanIdx_isSome p qs m (by simpa using Nat.lt_of_succ_lt_succ hn)
          (by simpa using hp)
        cases hs : scanIdx p qs with
        | none => rw [hs] at this; simp at this
        | some k => simp

/-- The `n`-th consecutive pair of a channel is `(ys[n], ys[n+1])`. -/
theorem zip_tail_getD :
    ∀ (ys : List ℚ) (n : ℕ), n + 1 < ys.length →
      (ys.zip ys.tail).getD n (0, 0) = (ys.getD n 0, ys.getD (n + 1) 0)
  | [], n => by intro h; simp at h
  | [y], n => by intro h; simp at h
  | y0 :: y1 :: ys, 0 => by intro _; simp [List.zip_cons_cons]
  | y0 :: y1 :: ys, n + 1 => by
    intro h
    have ih := zip_tail_getD (y1 :: ys) n (by simpa using Nat.lt_of_succ_lt_succ h)
    simpa [List.zip_cons_cons, List.getD_cons_succ] using ih

/-- The channel has one consecutive pair fewer than it has samples. -/
theorem zip_tail_length (ys : List ℚ) :
    (ys.zip ys.tail).length = ys.length - 1 := by
  rw [List.length_zip, List.length_tail]
  omega

/-- C5 (amended): when some consecutive pair rises through the threshold, the
edge scan succeeds; the index it reports is the FIRST qualifying pair's, and the
edge time handed on by `main_analysis` is `time[i]` — the time of the EARLIER
sample of that pair, not the later one; symmetrically for the falling scan. -/
theorem C5_first_pair_time (time ys : List ℚ) (thr : ℚ) :
    (∀ n, n + 1 < ys.length → ys.getD n 0 < thr → thr < ys.getD (n + 1) 0 →
      (risingIndex ys thr).isSome = true) ∧
    (∀ n, risingIndex ys thr = some n →
      (n + 1 < ys.length ∧ ys.getD n 0 < thr ∧ thr < ys.getD (n + 1) 0) ∧
      (∀ m, m < n → ¬(ys.getD m 0 < thr ∧ thr < ys.getD (m + 1) 0)) ∧
      edgeTimeRising time ys thr = some (time.getD n 0)) ∧
    (∀ n, n + 1 < ys.length → thr < ys.getD n 0 → ys.getD (n + 1) 0 < thr →
      (fallingIndex ys thr).isSome = true) ∧
    (∀ n, fallingIndex ys thr = some n →
      (n + 1 < ys.length ∧ thr < ys.getD n 0 ∧ ys.getD (n + 1) 0 < thr) ∧
      (∀ m, m < n → ¬(thr < ys.getD m 0 ∧ ys.getD (m + 1) 0 < thr)) ∧
      edgeTimeFalling time ys thr = some (time.getD n 0)) := by
  refine ⟨fun n hn h1 h2 => ?_, fun n hsome => ?_, fun n hn h1 h2 => ?_, fun n hsome => ?_⟩
  · refine scanIdx_isSome _ (ys.zip ys.tail) n ?_ ?_
    · rw [zip_tail_length]; omega
    · rw [zip_tail_getD ys n hn]
      exact decide_eq_true ⟨h1, h2⟩
  · obtain ⟨hlen, hp, hmin⟩ := scanIdx_some_spec _ (ys.zip ys.tail) n hsome
    rw [zip_tail_length] at hlen
    have hn1 : n + 1 < ys.length := by omega
    rw [zip_tail_getD ys n hn1] at hp
    refine ⟨⟨hn1, of_decide_eq_true hp⟩, fun m hm => ?_, by simp [edgeTimeRising, hsome]⟩
    have hm1 : m + 1 < ys.length := by omega
    have := hmin m hm
    rw [zip_tail_getD ys m hm1] at this
    exact of_decide_eq_false this
  · refine scanIdx_isSome _ (ys.zip ys.tail) n ?_ ?_
    · rw [zip_tail_length]; omega
    · rw [zip_tail_getD ys n hn]
      exact decide_eq_true ⟨h1, h2⟩
  · obtain ⟨hlen, hp, hmin⟩ := scanIdx_some_spec _ (ys.zip ys.tail) n hsome
    rw [zip_tail_length] at hlen
    have hn1 : n + 1 < ys.length := by omega
    rw [zip_tail_getD ys n hn1] at hp
    refine ⟨⟨hn1, of_decide_eq_true hp⟩, fun m hm => ?_, by simp [edgeTimeFalling, hsome]⟩
    have hm1 : m + 1 < ys.length := by omega
    have := hmin m hm
    rw [zip_tail_getD ys m hm1] at this
    exact of_decide_eq_false this

theorem C5_first_pair_time_witness :
    edgeTimeRising [0, 1, 2] [0, 10, 10] 5 = some (([0, 1, 2] : List ℚ).getD 0 0) ∧
    (fallingIndex [10, 0, 0] 5).isSome = true :=
  ⟨((C5_first_pair_time [0, 1, 2] [0, 10, 10] 5).2.1 0 (by decide)).2.2,
   (C5_first_pair_time [0, 1, 2] [10, 0, 0] 5).2.2.1 0 (by decide) (by decide) (by decide)⟩

/-- C5 counterexample: on the channel `[0, 10, 10]` with midpoint threshold `5`
the first (and only) rising pair is at index 0, so the claim predicts the time
of the LATER sample, `time[1] = 1`; the code returns `time[0] = 0`. -/
theorem C5_counterexample :
    edgeTimeRising [0, 1, 2] [0, 10, 10] 5 ≠ some 1 ∧
    edgeTimeRising [0, 1, 2] [0, 10, 10] 5 = some 0 ∧
    ([0, 10, 10] : List ℚ).getD 0 0 < 5 ∧ (5 : ℚ) < ([0, 10, 10] : List ℚ).getD 1 0 := by
  refine ⟨by decide, by decide, by decide, by decide⟩

deriving instance DecidableEq for Except

/-- An analysis call that returned a result rather than raising. -/
def analysisOk {α : Type} : Except PyExc α → Bool
  | .ok _ => true
  | .error _ => false

/-- Sequencing after a successful step. -/
theorem pyBind_ok {α β : Type} (a : α) (f : α → Except PyExc β) :
    (Except.ok a >>= f : Except PyExc β) = f a := rfl

/-- Sequencing after a raised exception propagates the exception. -/
theorem pyBind_error {α β : Type} (e : PyExc) (f : α → Except PyExc β) :
    (Except.error e >>= f : Except PyExc β) = .error e := rfl

/-- A `return` produces a normal result. -/
theorem pyPure_ok {α : Type} (a : α) : (pure a : Except PyExc α) = .ok a := rfl

/-- C9 (order preservation): when every record of the batch analyses
successfully, `data_integration` emits the voltages in exactly the input
iteration order — no sort — and the i-th entry of every metric array comes from
the i-th record's analysis, keeping all five arrays aligned with that order. -/
theorem C9_input_order (smooth : List ℚ → Except PyExc (List ℚ)) :
    ∀ recs : List (ℚ × DataFrame),
      (∀ r ∈ recs, analysisOk (main_analysis smooth r.2) = true) →
      ∃ ms : List AnalysisResult,
        recs.map (fun r => main_analysis smooth r.2) = ms.map Except.ok ∧
        data_integration smooth recs =
          .ok ⟨recs.map Prod.fst, ms.map (fun m => m.rise_duration),
            ms.map (fun m => m.fall_duration), ms.map (fun m => m.rise_response_time),
            ms.map (fun m => m.fall_response_time)⟩
  | [] => fun _ => ⟨[], rfl, rfl⟩
  | (v, d) :: rest => fun h => by
    have hd := h (v, d) (List.mem_cons_self _ _)
    obtain ⟨ms, hcal, hms⟩ := C9_input_order smooth rest
      (fun r hr => h r (List.mem_cons_of_mem _ hr))
    cases hm : main_analysis smooth d with
    | error e => rw [hm] at hd; simp [analysisOk] at hd
    | ok m =>
      refine ⟨m :: ms, ?_, ?_⟩
      · simpa [hm] using hcal
      · simp [data_integration, hm, hms]

set_option maxHeartbeats 4000000 in
/-- Concrete evaluation: `Wgood` analyses successfully.  Note that
`rise_response_time = 7/3` is the FIRST low crossing minus the trigger rise
time 0, and `fall_duration = 11/3` is the SECOND crossing minus the fall start
time 0. -/
theorem main_analysis_Wgood_eq :
    main_analysis idSmooth Wgood = .ok ⟨8/3, 11/3, 7/3, -5⟩ := by
  norm_num [main_analysis, idSmooth, Wgood, npMax, npMin, List.max?, List.min?,
    curveFitFlat, mean, whereFirst, edgeTimeRising, edgeTimeFalling, risingIndex,
    fallingIndex, scanIdx, find_intersection, pairCrossing, crossesLevel, interpTime,
    pyBind_ok, pyBind_error, pyPure_ok, List.getD_cons_zero, List.getD_cons_succ]

set_option maxHeartbeats 4000000 in
/-- Concrete evaluation: `Wbad` reaches the explicit two-crossings raise. -/
theorem main_analysis_Wbad_eq :
    main_analysis idSmooth Wbad = .error (.valueError lowCrossingsMsg) := by
  norm_num [main_analysis, idSmooth, Wbad, npMax, npMin, List.max?, List.min?,
    curveFitFlat, mean, whereFirst, edgeTimeRising, edgeTimeFalling, risingIndex,
    fallingIndex, scanIdx, find_intersection, pairCrossing, crossesLevel, interpTime,
    pyBind_ok, pyBind_error, pyPure_ok, List.getD_cons_zero, List.getD_cons_succ]

set_option maxHeartbeats 2000000 in
/-- Concrete evaluation: `Wnoedge` raises `IndexError` at the trigger edge scan. -/
theorem main_analysis_Wnoedge_eq :
    main_analysis idSmooth Wnoedge = .error .indexError := by
  norm_num [main_analysis, idSmooth, Wnoedge, npMax, npMin, List.max?, List.min?,
    curveFitFlat, mean, whereFirst, edgeTimeRising, edgeTimeFalling, risingIndex,
    fallingIndex, scanIdx, find_intersection, pairCrossing, crossesLevel, interpTime,
    pyBind_ok, pyBind_error, pyPure_ok, List.getD_cons_zero, List.getD_cons_succ]

set_option maxHeartbeats 8000000 in
/-- Concrete evaluation: `Wmulti` (four low-level crossings) analyses
successfully, its metrics built from the first two crossings `12/5` and `18/5`. -/
theorem main_analysis_Wmulti_eq :
    main_analysis idSmooth Wmulti = .ok ⟨23/5, 18/5, 12/5, -7⟩ := by
  norm_num [main_analysis, idSmooth, Wmulti, npMax, npMin, List.max?, List.min?,
    curveFitFlat, mean, whereFirst, edgeTimeRising, edgeTimeFalling, risingIndex,
    fallingIndex, scanIdx, find_intersection, pairCrossing, crossesLevel, interpTime,
    pyBind_ok, pyBind_error, pyPure_ok, List.getD_cons_zero, List.getD_cons_succ]

theorem C9_input_order_witness :
    ∃ ms : List AnalysisResult,
      [(5, Wgood), (1, Wgood), (3, Wgood)].map
          (fun r => main_analysis idSmooth r.2) = ms.map Except.ok ∧
      data_integration idSmooth [(5, Wgood), (1, Wgood), (3, Wgood)] =
        .ok ⟨[(5, Wgood), (1, Wgood), (3, Wgood)].map Prod.fst,
          ms.map (fun m => m.rise_duration), ms.map (fun m => m.fall_duration),
          ms.map (fun m => m.rise_response_time),
          ms.map (fun m => m.fall_response_time)⟩ :=
  C9_input_order idSmooth [(5, Wgood), (1, Wgood), (3, Wgood)] (by
    intro r hr
    fin_cases hr <;> simp [analysisOk, main_analysis_Wgood_eq])

/-- Records whose analysis raises `ValueError` are individually skipped: the
batch still completes, and the voltage list covers every record in input order
(also the skipped ones — see `C1_misaligned_arrays`). -/
theorem data_integration_ok_of_no_indexError (smooth : List ℚ → Except PyExc (List ℚ)) :
    ∀ recs : List (ℚ × DataFrame),
      (∀ r ∈ recs, main_analysis smooth r.2 ≠ .error .indexError) →
      ∃ g : Groups, data_integration smooth recs = .ok g ∧
        g.voltage_group = recs.map Prod.fst
  | [] => fun _ => ⟨⟨[], [], [], [], []⟩, rfl, rfl⟩
  | (v, d) :: rest => fun h => by
    obtain ⟨g, hg, hvg⟩ := data_integration_ok_of_no_indexError smooth rest
      (fun r hr => h r (List.mem_cons_of_mem _ hr))
    have hd := h (v, d) (List.mem_cons_self _ _)
    cases hm : main_analysis smooth d with
    | ok m =>
      exact ⟨⟨v :: g.voltage_group, m.rise_duration :: g.rise_time_group,
        m.fall_duration :: g.fall_time_group,
        m.rise_response_time :: g.rise_response_time_group,
        m.fall_response_time :: g.fall_response_time_group⟩,
        by simp [data_integration, hm, hg], by simp [hvg]⟩
    | error e =>
      cases e with
      | valueError msg =>
        exact ⟨⟨v :: g.voltage_group, g.rise_time_group, g.fall_time_group,
          g.rise_response_time_group, g.fall_response_time_group⟩,
          by simp [data_integration, hm, hg], by simp [hvg]⟩
      | indexError => exact absurd hm hd

/-- An `IndexError` raised by any record's analysis is NOT caught by the
`except ValueError` clause: it aborts the whole batch, whatever comes before or
after the offending record. -/
theorem data_integration_aborts (smooth : List ℚ → Except PyExc (List ℚ)) :
    ∀ (pre : List (ℚ × DataFrame)) (v : ℚ) (d : DataFrame) (rest : List (ℚ × DataFrame)),
      main_analysis smooth d = .error .indexError →
      data_integration smooth (pre ++ (v, d) :: rest) = .error .indexError
  | [] => fun v d rest h => by simp [data_integration, h]
  | (v0, d0) :: pre => fun v d rest h => by
    have ih := data_integration_aborts smooth pre v d rest h
    cases hm : main_analysis smooth d0 with
    | ok m => simp [data_integration, hm, ih]
    | error e =>
      cases e with
      | valueError msg => simp [data_integration, hm, ih]
      | indexError => simp [data_integration, hm]

/-- C2 (amended): per-record isolation holds exactly for failures that surface
as `ValueError` (the explicit two-crossings raise, scipy's too-short-input and
empty-partition errors); a batch free of `IndexError` always completes with one
voltage per record.  A `NoEdgeFound` failure, however, surfaces as `IndexError`
from `np.where(...)[0][0]` and aborts the entire batch. -/
theorem C2_value_error_isolated (smooth : List ℚ → Except PyExc (List ℚ)) :
    (∀ recs : List (ℚ × DataFrame),
      (∀ r ∈ recs, main_analysis smooth r.2 ≠ .error .indexError) →
      ∃ g : Groups, data_integration smooth recs = .ok g ∧
        g.voltage_group = recs.map Prod.fst) ∧
    (∀ (pre : List (ℚ × DataFrame)) (v : ℚ) (d : DataFrame) (rest : List (ℚ × DataFrame)),
      main_analysis smooth d = .error .indexError →
      data_integration smooth (pre ++ (v, d) :: rest) = .error .indexError) :=
  ⟨data_integration_ok_of_no_indexError smooth, data_integration_aborts smooth⟩

theorem C2_value_error_isolated_witness :
    (∃ g : Groups, data_integration idSmooth [(1, Wgood), (2, Wbad)] = .ok g ∧
      g.voltage_group = [(1, Wgood), (2, Wbad)].map Prod.fst) ∧
    data_integration idSmooth ([(5, Wgood)] ++ (1, Wnoedge) :: [(2, Wbad)]) =
      .error .indexError :=
  ⟨(C2_value_error_isolated idSmooth).1 [(1, Wgood), (2, Wbad)] (by
      intro r hr
      fin_cases hr <;> simp [main_analysis_Wgood_eq, main_analysis_Wbad_eq]),
   (C2_value_error_isolated idSmooth).2 [(5, Wgood)] 1 Wnoedge [(2, Wbad)]
     main_analysis_Wnoedge_eq⟩

/-- C2 counterexample: the first record's trigger channel is constant, so its
analysis raises `IndexError` (the NoEdgeFound failure); the batch aborts with
that exception instead of continuing with the second record, which would have
succeeded. -/
theorem C2_counterexample :
    data_integration idSmooth [(1, Wnoedge), (2, Wgood)] = .error .indexError ∧
    main_analysis idSmooth Wnoedge = .error .indexError ∧
    analysisOk (main_analysis idSmooth Wgood) = true := by
  refine ⟨?_, main_analysis_Wnoedge_eq, ?_⟩
  · simp [data_integration, main_analysis_Wnoedge_eq]
  · simp [analysisOk, main_analysis_Wgood_eq]

/-- C1: the failing record's voltage is NOT absent from the voltage array.
`voltage_group.append(voltage)` runs before `main_analysis`, so when the second
record fails with the two-crossings `ValueError`, the batch returns a voltage
array of length 2 but metric arrays of length 1 — the arrays are not
index-aligned. -/
theorem C1_misaligned_arrays :
    data_integration idSmooth [(1, Wgood), (2, Wbad)] =
      .ok ⟨[1, 2], [8/3], [11/3], [7/3], [-5]⟩ ∧
    main_analysis idSmooth Wbad = .error (.valueError lowCrossingsMsg) := by
  refine ⟨?_, main_analysis_Wbad_eq⟩
  simp [data_integration, main_analysis_Wgood_eq, main_analysis_Wbad_eq]

set_option maxHeartbeats 4000000 in
/-- C3: on `Wgood` the low-level crossings are `[7/3, 11/3]`; the code assigns
the FIRST crossing to `CH2_rise_start_time` and the SECOND to
`CH2_fall_end_time` (swapped relative to its own inline comments), so the
returned metrics are `rise_response_time = 7/3 - 0` (first crossing minus
trigger rise time) and `fall_duration = 11/3 - 0` (second crossing minus fall
start time), where the claim predicts `11/3 - 0` and `7/3 - 0` respectively. -/
theorem C3_crossings_swapped :
    find_intersection Wgood.time Wgood.ch2 (-5/3) = [7/3, 11/3] ∧
    mean (Wgood.ch2.filter (fun v => decide (v < 3/2))) = -5/3 ∧
    main_analysis idSmooth Wgood = .ok ⟨8/3, 11/3, 7/3, -5⟩ := by
  refine ⟨?_, ?_, main_analysis_Wgood_eq⟩
  · norm_num [Wgood, find_intersection, pairCrossing, crossesLevel, interpTime]
  · norm_num [Wgood, mean]

set_option maxHeartbeats 4000000 in
/-- C4 counterexample: `Wmulti` has FOUR low-level crossings, yet the analysis
succeeds (using the first two), returning full metrics — so a crossing count
other than two (here ≥ 3) is not a failure, contradicting the claim. -/
theorem C4_counterexample :
    (find_intersection Wmulti.time Wmulti.ch2 (-9/5)).length = 4 ∧
    mean (Wmulti.ch2.filter (fun v => decide (v < 3/2))) = -9/5 ∧
    main_analysis idSmooth Wmulti = .ok ⟨23/5, 18/5, 12/5, -7⟩ := by
  refine ⟨?_, ?_, main_analysis_Wmulti_eq⟩
  · norm_num [Wmulti, find_intersection, pairCrossing, crossesLevel, interpTime]
  · norm_num [Wmulti, mean]

/-- C4 (amended): given that every earlier step of the analysis succeeds
(smoothing, the CH1 reductions and edge scans, non-empty CH2 partitions, and
the fall-start scan), `main_analysis` raises the two-crossings `ValueError`
EXACTLY when the number of low-level crossings of the (smoothed) response
channel is FEWER than two; with two or more crossings the analysis never
raises it, proceeding on the first two. -/
theorem C4_low_crossings_boundary (smooth : List ℚ → Except PyExc (List ℚ))
    (data : DataFrame) (CH1 CH2 : List ℚ) (mx1 mn1 mx2 mn2 : ℚ) (i j k : ℕ)
    (h1 : smooth data.ch1 = .ok CH1) (h2 : smooth data.ch2 = .ok CH2)
    (h3 : CH1.max? = some mx1) (h4 : CH1.min? = some mn1)
    (h5 : risingIndex CH1 ((mx1 + mn1) / 2) = some i)
    (h6 : fallingIndex CH1 ((mx1 + mn1) / 2) = some j)
    (h7 : CH2.max? = some mx2) (h8 : CH2.min? = some mn2)
    (h9 : CH2.filter (fun v => decide ((mx2 + mn2) / 2 < v)) ≠ [])
    (h10 : CH2.filter (fun v => decide (v < (mx2 + mn2) / 2)) ≠ [])
    (h11 : fallingIndex CH2
      (mean (CH2.filter (fun v => decide ((mx2 + mn2) / 2 < v)))) = some k) :
    main_analysis smooth data = .error (.valueError lowCrossingsMsg) ↔
      (find_intersection data.time CH2
        (mean (CH2.filter (fun v => decide (v < (mx2 + mn2) / 2))))).length < 2 := by
  simp only [main_analysis, h1, h2, pyBind_ok, npMax, npMin, h3, h4, h7, h8,
    edgeTimeRising, edgeTimeFalling, h5, h6, h11, Option.map_some', whereFirst,
    curveFitFlat, if_neg h9, if_neg h10]
  by_cases hL : 2 ≤ (find_intersection data.time CH2
      (mean (CH2.filter (fun v => decide (v < (mx2 + mn2) / 2))))).length
  · rw [if_pos hL]
    constructor
    · intro hcontra
      exfalso
      cases hre : risingIndex CH2
          (mean (CH2.filter (fun v => decide ((mx2 + mn2) / 2 < v)))) with
      | some r => rw [hre] at hcontra; simp [whereFirst, pyBind_ok, pyPure_ok] at hcontra
      | none => rw [hre] at hcontra; simp [whereFirst, pyBind_error] at hcontra
    · intro hlt
      exact absurd hlt (by omega)
  · rw [if_neg hL]
    exact ⟨fun _ => by omega, fun _ => rfl⟩

set_option maxHeartbeats 2000000 in
theorem C4_low_crossings_boundary_witness :
    main_analysis idSmooth Wbad = .error (.valueError lowCrossingsMsg) := by
  refine (C4_low_crossings_boundary idSmooth Wbad [0, 10, 10, 0] [6, 4, 0, 0]
      10 0 6 0 0 2 0 rfl rfl ?_ ?_ ?_ ?_ ?_ ?_ ?_ ?_ ?_).mpr ?_
  · norm_num [List.max?]
  · norm_num [List.min?]
  · norm_num [risingIndex, scanIdx]
  · norm_num [fallingIndex, scanIdx]
  · norm_num [List.max?]
  · norm_num [List.min?]
  · intro hc
    norm_num at hc
    exact List.cons_ne_nil _ _ hc
  · intro hc
    norm_num at hc
    exact List.cons_ne_nil _ _ hc
  · norm_num [fallingIndex, scanIdx, mean]
  · norm_num [Wbad, find_intersection, pairCrossing, crossesLevel, interpTime, mean]
